import Mathlib

/-!
Verification development for the keyword pattern matching and ranking engine
of the energypattern-keyword-search repository.

The Python sources are embedded shallowly:

* `src/cfg/patterns.py` — pattern stripping, the composite sort key and
  `transform_quality_attributes` (pure functions over strings and lists);
* `src/processing_pipeline/keyword_matching/services/MongoDB.py` — the
  bot-filtering aggregation pipelines, embedded as list transformations over
  the stored document shapes of
  `src/processing_pipeline/keyword_matching/services/GithubDataFetcher.py`;
* `src/processing_pipeline/keyword_matching/utils/save_to_file.py` — match
  serialization and the empty-record early return;
* the Matcher / Aggregator of `KeywordExtractor.py` is not present under the
  sources; it is modelled from the specification where a claim needs it, and
  each such definition is marked in its doc comment.
-/

namespace EnergyPatternSearch

/-! ## src/cfg/patterns.py -/

/-- Embedding of `re.sub(r'\\b|.\?', '', qa)` from `strip_qa_from_regex`
(src/cfg/patterns.py line 8) as a left-to-right scan over the characters.
At each position Python first tries the alternative `\\b` (a literal
backslash followed by the letter b) and then `.\?` (any character except
newline followed by a literal question mark); a match of either is deleted
and the scan resumes after it, otherwise the character is kept and the scan
advances by one. -/
def stripChars : List Char → List Char
  | [] => []
  | [c] => [c]
  | c :: d :: rest =>
    if c = '\\' ∧ d = 'b' then stripChars rest
    else if c ≠ '\n' ∧ d = '?' then stripChars rest
    else c :: stripChars (d :: rest)

/-- Embedding of `strip_qa_from_regex` (src/cfg/patterns.py lines 7-9). -/
def strip_qa_from_regex (qa : String) : String :=
  String.mk (stripChars qa.data)

/-- Number of space characters, embedding Python `qa.count(" ")`
(counting occurrences of a one-character substring is counting that
character). -/
def spaceCount (qa : String) : Nat :=
  qa.data.count ' '

/-- Number of hyphen characters, embedding Python `qa.count("-")`. -/
def hyphenCount (qa : String) : Nat :=
  qa.data.count '-'

/-- Characters of the stripped form of a pattern. -/
def strippedOf (qa : String) : List Char :=
  stripChars qa.data

/-- Type of the tuple returned by `qa_sorter`, with the lexicographic order
Python uses to compare tuples; the final component is the character list of
the stripped pattern, ordered lexicographically by code point exactly as
Python compares strings. -/
abbrev QaKey : Type := Int ×ₗ Int ×ₗ Int ×ₗ List Char

/-- Embedding of `qa_sorter` (src/cfg/patterns.py lines 12-16): the key
`(-qa.count(" "), -qa.count("-"), -len(stripped), stripped)`. -/
def qa_sorter (qa : String) : QaKey :=
  toLex (-(spaceCount qa : Int),
    toLex (-(hyphenCount qa : Int),
      toLex (-((strippedOf qa).length : Int), strippedOf qa)))

/-- Comparison used by the embedding of Python `sorted(..., key=qa_sorter)`:
a stable sort places `a` no later than `b` exactly when
`qa_sorter a ≤ qa_sorter b`. -/
def qaLe (a b : String) : Prop :=
  qa_sorter a ≤ qa_sorter b

instance : DecidableRel qaLe :=
  fun a b => inferInstanceAs (Decidable (qa_sorter a ≤ qa_sorter b))

instance : IsTotal String qaLe :=
  ⟨fun a b => le_total (qa_sorter a) (qa_sorter b)⟩

instance : IsTrans String qaLe :=
  ⟨fun _ _ _ hab hbc => le_trans hab hbc⟩

/-- Insertion-ordered mapping from attribute names to keyword pattern lists,
embedding the Python dict `QualityAttributesMap`. -/
abbrev QualityAttributesMap : Type := List (String × List String)

/-- Embedding of Python `sorted(l, key=qa_sorter)`: Python sorted is the
stable sort by the key, which insertion sort with `qaLe` computes. -/
def pySorted (l : List String) : List String :=
  List.insertionSort qaLe l

/-- Embedding of `transform_quality_attributes`
(src/cfg/patterns.py lines 19-21): a dict comprehension mapping each
attribute to `sorted(keywords if keep_regex_notation else
(strip_qa_from_regex(k) for k in keywords), key=qa_sorter)`. -/
def transform_quality_attributes (qas : QualityAttributesMap) ( keep_regex_notation : Bool) :
    QualityAttributesMap :=
  qas.map (fun p =>
    (p.1, pySorted (if keep_regex_notation then p.2 else p.2.map strip_qa_from_regex)))

/-- The composite key ordering exactly as the claims word it: descending
space-separated word count (measured, as in the code, by the number of
separating space characters), then descending hyphen count, then descending
length of the pattern after stripping regex-boundary and wildcard tokens,
then ascending alphabetical order on the stripped form. -/
def claimOrder (a b : String) : Prop :=
  spaceCount b < spaceCount a ∨ spaceCount a = spaceCount b ∧
    (hyphenCount b < hyphenCount a ∨ hyphenCount a = hyphenCount b ∧
      ((strippedOf b).length < (strippedOf a).length ∨
        (strippedOf a).length = (strippedOf b).length ∧ strippedOf a ≤ strippedOf b))

/-- Reference definition following the words of claim C10 verbatim: delete,
in one left-to-right scan, every non-overlapping occurrence of either the
two-character sequence backslash-b or ANY single character immediately
followed by a question mark.  It deliberately follows the claim text, not
the source, so that it can be compared against `stripChars`. -/
def stripSpecClaim : List Char → List Char
  | [] => []
  | [c] => [c]
  | c :: d :: rest =>
    if c = '\\' ∧ d = 'b' then stripSpecClaim rest
    else if d = '?' then stripSpecClaim rest
    else c :: stripSpecClaim (d :: rest)

/-! ## Stored document shapes
(from src/processing_pipeline/keyword_matching/services/GithubDataFetcher.py;
date, label, state, count and reaction fields are omitted: no claim and no
filtering step reads them). -/

/-- Comment documents as stored (`CommentDTO`, GithubDataFetcher.py
lines 54-63): the commenter login may be absent (`user: str | None`). -/
structure CommentDTO where
  html_url : String
  body : String
  user : Option String

/-- Issue documents as stored (`IssueDTO`, GithubDataFetcher.py
lines 66-88): the author login may be absent (`author: str | None`). -/
structure IssueDTO where
  html_url : String
  title : String
  body : String
  author : Option String
  comments_data : List CommentDTO

/-- Pull-request documents as stored (`PullRequestDTO`,
GithubDataFetcher.py lines 90-107).  The dataclass declares NO author and NO
user field, so the Mongo documents produced by
`dataclasses.asdict(PullRequestDTO)` contain no such keys. -/
structure PullRequestDTO where
  html_url : String
  title : String
  body : Option String
  comments_data : List CommentDTO
  issues : List IssueDTO

/-- Value of the path `author` on a stored pull-request document: the field
does not exist on `PullRequestDTO`, so the lookup is always missing. -/
def prAuthorField (_ : PullRequestDTO) : Option String := none

/-- Value of the path `user` on a stored pull-request document: the field
does not exist on `PullRequestDTO`, so the lookup is always missing. -/
def prUserField (_ : PullRequestDTO) : Option String := none

/-! ## src/processing_pipeline/keyword_matching/services/MongoDB.py -/

/-- The allow-list `self.non_robot_users` (MongoDB.py line 21). -/
def non_robot_users : List String :=
  ["olgabot", "hugtalbot", "arrogantrobot", "robot-chenwei", "Bot-Enigma-0"]

/-- Word characters of the regex metacharacter backslash-b for ASCII text:
letters, digits and underscore. -/
def isWordChar (c : Char) : Bool :=
  c.isAlphanum || c = '_'

/-- Does the pattern `bot` followed by a word boundary match at the head of
the character list, case-insensitively? -/
def botMatchHead : List Char → Bool
  | b :: o :: t :: rest =>
    (b.toLower = 'b' && o.toLower = 'o' && t.toLower = 't') &&
      (match rest with
       | [] => true
       | c :: _ => !(isWordChar c))
  | _ => false

/-- Search variant of `botMatchHead`: does the pattern match anywhere? -/
def botSearchChars : List Char → Bool
  | [] => false
  | c :: rest => botMatchHead (c :: rest) || botSearchChars rest

/-- Embedding of `re.compile(r"bot\b", re.IGNORECASE)` searched against a
string (`self.regex_omitting_bots`, MongoDB.py line 22). -/
def regex_omitting_bots (s : String) : Bool :=
  botSearchChars s.data

/-- Mongo clause `{field: {"$not": {"$regex": regex_omitting_bots}}}`: a
missing or null field does not match the regex, so `$not` selects it. -/
def not_regex_clause (f : Option String) : Bool :=
  match f with
  | none => true
  | some s => !(regex_omitting_bots s)

/-- Mongo clause `{field: {"$in": non_robot_users}}`: a missing or null
field is not in the list (the list holds no null). -/
def in_allowlist_clause (f : Option String) : Bool :=
  match f with
  | none => false
  | some s => decide (s ∈ non_robot_users)

/-- The `$or` filter shared by the authored-text pipelines of MongoDB.py:
keep a record when its author/user field does not match the bot regex or is
allow-listed. -/
def author_or_clause (f : Option String) : Bool :=
  not_regex_clause f || in_allowlist_clause f

/-- Rows produced by the extraction pipelines (`MongoMatch`,
MongoDB.py lines 14-16). -/
structure MongoMatch where
  text : String
  html_url : String

/-- Embedding of `MongoDB.extract_issues` (MongoDB.py lines 75-81):
text is title concatenated with `"; "` and body, filtered on `author`. -/
def extract_issues (issues : List IssueDTO) : List MongoMatch :=
  (issues.filter (fun i => author_or_clause i.author)).map
    (fun i => ⟨i.title ++ "; " ++ i.body, i.html_url⟩)

/-- Embedding of `MongoDB.extract_comments` (MongoDB.py lines 68-73):
unwind `comments_data`, filter on `comments_data.user`, project the comment
body as text with the parent issue permalink. -/
def extract_comments (issues : List IssueDTO) : List MongoMatch :=
  ((issues.flatMap (fun i => i.comments_data.map (fun c => (i, c)))).filter
      (fun p => author_or_clause p.2.user)).map
    (fun p => ⟨p.2.body, p.1.html_url⟩)

/-- Embedding of `MongoDB.extract_prs` (MongoDB.py lines 92-113): the
`$match` ors the regex and allow-list clauses over BOTH the `author` and the
`user` paths of the stored pull-request document. -/
def extract_prs (prs : List PullRequestDTO) : List MongoMatch :=
  (prs.filter (fun pr =>
      author_or_clause (prAuthorField pr) || author_or_clause (prUserField pr))).map
    (fun pr => ⟨pr.title ++ "; " ++ pr.body.getD "", pr.html_url⟩)

/-- Embedding of `MongoDB.extract_pr_comments` (MongoDB.py lines 115-133). -/
def extract_pr_comments (prs : List PullRequestDTO) : List MongoMatch :=
  ((prs.flatMap (fun pr => pr.comments_data.map (fun c => (pr, c)))).filter
      (fun p => author_or_clause p.2.user)).map
    (fun p => ⟨p.2.body, p.1.html_url⟩)

/-- Embedding of `MongoDB.extract_pr_related_issues`
(MongoDB.py lines 145-172). -/
def extract_pr_related_issues (prs : List PullRequestDTO) : List MongoMatch :=
  ((prs.flatMap (fun pr => pr.issues)).filter
      (fun i => author_or_clause i.author)).map
    (fun i => ⟨i.title ++ "; " ++ i.body, i.html_url⟩)

/-- Embedding of `MongoDB.extract_pr_related_issue_comments`
(MongoDB.py lines 174-194). -/
def extract_pr_related_issue_comments (prs : List PullRequestDTO) : List MongoMatch :=
  (((prs.flatMap (fun pr => pr.issues)).flatMap
        (fun i => i.comments_data.map (fun c => (i, c)))).filter
      (fun p => author_or_clause p.2.user)).map
    (fun p => ⟨p.2.body, p.1.html_url⟩)

/-! ## Matcher and Aggregator (modelled from the spec) -/

/-- The minimal matchable record of spec section 3. -/
structure CorpusUnit where
  text : String
  source_url : String

/-- The output atom of spec section 3, reduced to its identity triple. -/
structure MatchRecord where
  quality_attribute : String
  keyword : String
  source_url : String
deriving DecidableEq

/-- Number of occurrences of a keyword inside a text, counted at every
starting position. -/
def occCount (pat text : String) : Nat :=
  (List.range (text.data.length + 1)).countP
    (fun i => pat.data.isPrefixOf (text.data.drop i))

/-- Does the keyword occur at least once in the text? -/
def keyword_occurs (pat text : String) : Bool :=
  decide (0 < occCount pat text)

/-- Modelled from the spec: the Matcher of `KeywordExtractor.py` is not
under the sources; spec section 4.2 prescribes that for each quality
attribute and each pattern of its ranked sequence the unit text is searched,
and each distinct attribute-keyword pairing that matches produces exactly
one MatchRecord for the unit regardless of how many occurrences appear. -/
def match_unit (taxonomy : List (String × List String)) (u : CorpusUnit) :
    List MatchRecord :=
  taxonomy.flatMap (fun p =>
    (p.2.filter (fun k => keyword_occurs k u.text)).map
      (fun k => ⟨p.1, k, u.source_url⟩))

/-- Streaming deduplication: keep a record unless an equal one was seen. -/
def aggAux (seen : List MatchRecord) : List MatchRecord → List MatchRecord
  | [] => []
  | r :: rs => if r ∈ seen then aggAux seen rs else r :: aggAux (r :: seen) rs

/-- Modelled from the spec: the Aggregator of `KeywordExtractor.py` is not
under the sources; spec section 4.3 prescribes deduplication of the match
stream by the (quality_attribute, keyword, source_url) triple, stable in the
input order. -/
def aggregate (records : List MatchRecord) : List MatchRecord :=
  aggAux [] records

/-! ## src/processing_pipeline/keyword_matching/utils/save_to_file.py -/

/-- Match records as handed to serialization (`FullMatch` of
`KeywordExtractor.py`); the context field carries the matched text. -/
structure FullMatch where
  quality_attribute : String
  keyword : String
  source_url : String
  matched_text_context : String

/-- Serialized row shape: the identity triple plus the optional context. -/
structure RowDict where
  quality_attribute : String
  keyword : String
  source_url : String
  matched_text_context : Option String
deriving DecidableEq

/-- Modelled from the spec: `FullMatch.as_dict` is defined in
`KeywordExtractor.py`, which is not under the sources; spec sections 3 and 6
prescribe that `matched_text_context` is populated only when the caller
requests full-text retention and that the record is otherwise pruned to the
minimal identity tuple. -/
def FullMatch.as_dict (r : FullMatch) (keep_text : Bool) : RowDict :=
  if keep_text then
    ⟨r.quality_attribute, r.keyword, r.source_url, some r.matched_text_context⟩
  else
    ⟨r.quality_attribute, r.keyword, r.source_url, none⟩

/-- Effect of one call of `save_matches_to_file`: either the empty-record
early return (which only prints a message) or a parquet write of the
serialized rows. -/
inductive SaveResult where
  | skipped : SaveResult
  | written : List RowDict → SaveResult
deriving DecidableEq

/-- Embedding of `save_matches_to_file` (save_to_file.py lines 12-27): with
zero records it prints and returns without writing; otherwise it writes
`[record.as_dict(keep_text=with_matched_text) for record in records]`. -/
def save_matches_to_file (records : List FullMatch) (with_matched_text : Bool) :
    SaveResult :=
  if records.length = 0 then SaveResult.skipped
  else SaveResult.written (records.map (fun r => r.as_dict with_matched_text))

/-- The per-source count line printed by `main`
(extract_from_source_code.py line 46), produced unconditionally. -/
def code_comment_report (n : Nat) (repoId : String) : String :=
  "Found " ++ toString n ++ " matches in code comments for " ++ repoId

/-- The code-comment step of `main` (extract_from_source_code.py
lines 45-48): report the match count, then save. -/
def process_code_comments (matches_code_comments : List FullMatch) (repoId : String)
    ( append_full_text : Bool) : String × SaveResult :=
  (code_comment_report matches_code_comments.length repoId,
    save_matches_to_file matches_code_comments append_full_text)

/-! ## Operational store model for the purity claim -/

/-- Read a list cell of the store. -/
def readRef (heap : List (List String)) (r : Nat) : List String :=
  heap.getD r []

/-- Operational embedding of `transform_quality_attributes` over an explicit
store of list objects: the input dict maps attribute names to references
into the store; Python `sorted` reads the referenced list and allocates a
fresh one, and the dict comprehension allocates a fresh dict, so each entry
appends one new cell and the result dict references only new cells. -/
def transform_quality_attributes_heap (heap : List (List String))
    (m : List (String × Nat)) ( keep_regex_notation : Bool) :
    List (List String) × List (String × Nat) :=
  match m with
  | [] => (heap, [])
  | p :: rest =>
    let v := readRef heap p.2
    let sortedList :=
      pySorted (if keep_regex_notation then v else v.map strip_qa_from_regex)
    let res :=
      transform_quality_attributes_heap (heap ++ [sortedList]) rest keep_regex_notation
    (res.1, (p.1, heap.length) :: res.2)

/-! ## Theorems -/

/-- The tuple comparison of `qa_sorter` coincides with the composite
ordering as the claims word it. -/
theorem qaLe_iff_claimOrder (a b : String) : qaLe a b ↔ claimOrder a b := by
  unfold qaLe qa_sorter claimOrder
  simp only [Prod.Lex.le_iff, neg_lt_neg_iff, Nat.cast_lt, neg_inj, Nat.cast_inj]

/-- Claim C1: for every taxonomy mapping, `transform_quality_attributes` in
regex mode returns a mapping with the same attribute keys in which each
attribute's pattern list is a permutation of the input list that is ordered
by the composite key: descending count of word-separating spaces, then
descending hyphen count, then descending character length after stripping
regex-boundary and wildcard tokens, then ascending alphabetical order on the
stripped form. -/
theorem C1_regex_mode_ranked_permutation (qas : QualityAttributesMap) :
    (transform_quality_attributes qas true).map Prod.fst = qas.map Prod.fst ∧
    List.Forall₂ (fun inp out => out.2.Perm inp.2 ∧ out.2.Sorted claimOrder)
      qas (transform_quality_attributes qas true) := by
  constructor
  · simp [transform_quality_attributes]
  · unfold transform_quality_attributes
    rw [List.forall₂_map_right_iff, List.forall₂_same]
    intro p _
    constructor
    · simpa [pySorted] using List.perm_insertionSort qaLe p.2
    · have h := List.sorted_insertionSort qaLe
        (if true then p.2 else p.2.map strip_qa_from_regex)
      exact h.imp (fun hab => (qaLe_iff_claimOrder _ _).1 hab)

/-- Inserting a key-preserving image commutes with `orderedInsert`. -/
theorem orderedInsert_map_of_key_eq (f : String → String) (a : String)
    (l : List String) (ha : qa_sorter (f a) = qa_sorter a)
    (hl : ∀ x ∈ l, qa_sorter (f x) = qa_sorter x) :
    List.orderedInsert qaLe (f a) (l.map f) = (List.orderedInsert qaLe a l).map f := by
  induction l with
  | nil => rfl
  | cons c cs ih =>
    have hc := hl c (List.mem_cons_self c cs)
    have hcond : qaLe (f a) (f c) ↔ qaLe a c := by unfold qaLe; rw [ha, hc]
    by_cases hac : qaLe a c
    · rw [List.map_cons, List.orderedInsert, List.orderedInsert,
        if_pos hac, if_pos (hcond.2 hac), List.map_cons, List.map_cons]
    · rw [List.map_cons, List.orderedInsert, List.orderedInsert,
        if_neg hac, if_neg (fun hh => hac (hcond.1 hh)), List.map_cons,
        ih (fun x hx => hl x (List.mem_cons_of_mem _ hx))]

/-- Sorting a key-preserving image commutes with the stable sort. -/
theorem insertionSort_map_of_key_eq (f : String → String) (l : List String)
    (hl : ∀ x ∈ l, qa_sorter (f x) = qa_sorter x) :
    List.insertionSort qaLe (l.map f) = (List.insertionSort qaLe l).map f := by
  induction l with
  | nil => rfl
  | cons a l ih =>
    simp only [List.map_cons, List.insertionSort]
    rw [ih (fun x hx => hl x (List.mem_cons_of_mem _ hx)),
      orderedInsert_map_of_key_eq f a _ (hl a (List.mem_cons_self a l))
        (fun x hx => hl x (List.mem_cons_of_mem _
          ((List.perm_insertionSort qaLe l).mem_iff.1 hx)))]

/-- Claim C4 counterexample: on the taxonomy with the single attribute `A`
and keyword list `["a ?", "bb"]`, stripped mode yields `["bb", "a"]` while
the stripped forms of the regex-mode ranking are `["a", "bb"]`; position 0
differs, so the two modes do not agree on ranking. -/
theorem C4_counterexample :
    transform_quality_attributes [("A", ["a ?", "bb"])] false = [("A", ["bb", "a"])] ∧
    (transform_quality_attributes [("A", ["a ?", "bb"])] true).map
        (fun p => (p.1, p.2.map strip_qa_from_regex)) = [("A", ["a", "bb"])] ∧
    transform_quality_attributes [("A", ["a ?", "bb"])] false ≠
      (transform_quality_attributes [("A", ["a ?", "bb"])] true).map
        (fun p => (p.1, p.2.map strip_qa_from_regex)) :=
  ⟨by decide, by decide, by decide⟩

/-- Claim C4 as amended: stripped mode applies the identical composite sort,
but computes the key from the already-stripped patterns; consequently the
two modes agree position-wise whenever stripping preserves every keyword's
sort key (in general they may disagree, see the counterexample). -/
theorem C4_stripped_mode_agreement (qas : QualityAttributesMap)
    (h : ∀ p ∈ qas, ∀ k ∈ p.2, qa_sorter (strip_qa_from_regex k) = qa_sorter k) :
    transform_quality_attributes qas false =
      (transform_quality_attributes qas true).map
        (fun p => (p.1, p.2.map strip_qa_from_regex)) := by
  unfold transform_quality_attributes
  rw [List.map_map]
  apply List.map_congr_left
  intro p hp
  simp only [Function.comp, if_true, if_false, pySorted]
  exact congrArg (fun l => (p.1, l))
    (insertionSort_map_of_key_eq strip_qa_from_regex p.2 (h p hp))

/-- Witness for C4: on a taxonomy whose keywords carry no regex tokens the
hypothesis holds and the two modes agree. -/
theorem C4_stripped_mode_agreement_witness :
    (∀ p ∈ ([("A", ["gzip", "rate limit"])] : QualityAttributesMap),
        ∀ k ∈ p.2, qa_sorter (strip_qa_from_regex k) = qa_sorter k) ∧
    transform_quality_attributes [("A", ["gzip", "rate limit"])] false =
      (transform_quality_attributes [("A", ["gzip", "rate limit"])] true).map
        (fun p => (p.1, p.2.map strip_qa_from_regex)) :=
  ⟨by decide, C4_stripped_mode_agreement [("A", ["gzip", "rate limit"])] (by decide)⟩

/-- Claim C5 counterexample: `transform_quality_attributes` performs no
regex compilation and has no failure path (the only regex in patterns.py is
the fixed literal used for stripping); on a taxonomy holding the malformed
fragment `"["` it returns normally and passes the fragment through into the
output instead of raising an invalid-pattern error at normalization time. -/
theorem C5_counterexample :
    transform_quality_attributes [("A", ["["])] true = [("A", ["["])] ∧
    transform_quality_attributes [("A", ["["])] false = [("A", ["["])] :=
  ⟨by decide, by decide⟩

/-- Claim C5 as amended: normalization never rejects a taxonomy entry; every
keyword of every attribute — malformed or not — survives (modulo stripping)
into the output of `transform_quality_attributes`, any compilation error
being left to first use by the matcher. -/
theorem C5_no_validation_at_normalization (qas : QualityAttributesMap) (b : Bool)
    (p : String × List String) (hp : p ∈ qas) (k : String) (hk : k ∈ p.2) :
    ∃ q ∈ transform_quality_attributes qas b,
      q.1 = p.1 ∧ (if b then k else strip_qa_from_regex k) ∈ q.2 := by
  refine ⟨(p.1, pySorted (if b then p.2 else p.2.map strip_qa_from_regex)),
    List.mem_map_of_mem _ hp, rfl, ?_⟩
  apply (List.perm_insertionSort qaLe _).mem_iff.2
  cases b with
  | true => simpa using hk
  | false => simpa using List.mem_map_of_mem strip_qa_from_regex hk

/-- Witness for C5: the malformed fragment `"["` is present in the output. -/
theorem C5_no_validation_witness :
    ("A", ["["]) ∈ ([("A", ["["])] : QualityAttributesMap) ∧ "[" ∈ ["["] ∧
    ∃ q ∈ transform_quality_attributes [("A", ["["])] true,
      q.1 = "A" ∧ (if true then "[" else strip_qa_from_regex "[") ∈ q.2 :=
  ⟨by decide, by decide,
    C5_no_validation_at_normalization [("A", ["["])] true ("A", ["["])
      (by decide) "[" (by decide)⟩

/-- Claim C7: the Pattern Normalizer is deterministic — two runs of
`transform_quality_attributes` on equal taxonomies produce identical
ordered pattern sequences (the embedding is a pure function and the stable
sort it embeds is fully determined by its input). -/
theorem C7_normalization_deterministic (m1 m2 : QualityAttributesMap) (b : Bool)
    (h : m1 = m2) :
    transform_quality_attributes m1 b = transform_quality_attributes m2 b := by
  rw [h]

/-- Witness for C7 at a concrete taxonomy. -/
theorem C7_normalization_deterministic_witness :
    ([("A", ["gzip", "rate limit"])] : QualityAttributesMap) = [("A", ["gzip", "rate limit"])] ∧
    transform_quality_attributes [("A", ["gzip", "rate limit"])] true =
      transform_quality_attributes [("A", ["gzip", "rate limit"])] true :=
  ⟨rfl, C7_normalization_deterministic _ _ true rfl⟩

/-- Counting inside the streaming deduplicator: a record occurs exactly once
in the output when it occurs in the remaining input and was not yet seen,
and not at all otherwise. -/
theorem count_aggAux (r : MatchRecord) (seen l : List MatchRecord) :
    List.count r (aggAux seen l) = if r ∈ l ∧ r ∉ seen then 1 else 0 := by
  induction l generalizing seen with
  | nil => simp [aggAux]
  | cons a l ih =>
    simp only [aggAux]
    by_cases ha : a ∈ seen
    · rw [if_pos ha, ih seen]
      by_cases hr : r = a
      · subst hr; simp [ha]
      · simp [List.mem_cons, hr]
    · rw [if_neg ha, List.count_cons, ih (a :: seen)]
      by_cases hr : r = a
      · subst hr; simp [ha, List.mem_cons]
      · simp [List.mem_cons, hr, Ne.symm hr]

/-- Claim C2: for every corpus unit whose text contains a taxonomy keyword
N >= 1 times, matching followed by aggregation yields exactly one
MatchRecord carrying that (quality_attribute, keyword, source_url) triple —
never zero and never more than one, regardless of N. -/
theorem C2_dedup_invariant (tax : List (String × List String)) (u : CorpusUnit)
    (attr k : String) (ks : List String) (N : Nat)
    (hmem : (attr, ks) ∈ tax) (hk : k ∈ ks)
    (hN : occCount k u.text = N) (hpos : 1 ≤ N) :
    List.count (⟨attr, k, u.source_url⟩ : MatchRecord)
      (aggregate (match_unit tax u)) = 1 := by
  have hocc : keyword_occurs k u.text = true := by
    unfold keyword_occurs
    rw [hN]
    exact decide_eq_true (by omega)
  have hmem2 : (⟨attr, k, u.source_url⟩ : MatchRecord) ∈ match_unit tax u := by
    unfold match_unit
    refine List.mem_flatMap.2 ⟨(attr, ks), hmem, ?_⟩
    exact List.mem_map_of_mem _ (List.mem_filter.2 ⟨hk, hocc⟩)
  unfold aggregate
  rw [count_aggAux]
  simp [hmem2]

/-- Witness for C2: the keyword `gzip` occurs twice in the unit text and the
aggregate carries its record exactly once. -/
theorem C2_dedup_invariant_witness :
    occCount "gzip" "gzip and gzip" = 2 ∧
    List.count (⟨"datatransfer", "gzip", "https://x/1"⟩ : MatchRecord)
      (aggregate (match_unit [("datatransfer", ["gzip"])]
        ⟨"gzip and gzip", "https://x/1"⟩)) = 1 :=
  ⟨by decide,
    C2_dedup_invariant [("datatransfer", ["gzip"])] ⟨"gzip and gzip", "https://x/1"⟩
      "datatransfer" "gzip" ["gzip"] 2 (by decide) (by decide) (by decide) (by decide)⟩

/-- Claim C3, evaluated on the code: the shared `$or` clause excludes a
record exactly when its author/user field holds a string matching the
case-insensitive regex `bot` followed by a word boundary and that string is
not allow-listed, so `some-bot` is excluded and `olgabot` is included by the
adapters that filter on an existing field; but the stored pull-request
documents carry NO author or user field, so `extract_prs` keeps every
pull request unchanged — a PR authored by `some-bot` is NOT excluded,
contradicting the claim and the function's own docstring. -/
theorem C3_pr_bot_filter_vacuous :
    (∀ f : Option String,
        author_or_clause f = false ↔
          ∃ s, f = some s ∧ regex_omitting_bots s = true ∧ s ∉ non_robot_users) ∧
    author_or_clause (some "some-bot") = false ∧
    author_or_clause (some "olgabot") = true ∧
    (∀ prs : List PullRequestDTO,
      extract_prs prs =
        prs.map (fun pr => ⟨pr.title ++ "; " ++ pr.body.getD "", pr.html_url⟩)) := by
  refine ⟨?_, by decide, by decide, ?_⟩
  · intro f
    cases f with
    | none => simp [author_or_clause, not_regex_clause]
    | some s =>
      simp only [author_or_clause, not_regex_clause, in_allowlist_clause,
        Bool.or_eq_false_iff, Bool.not_eq_false', decide_eq_false_iff_not,
        Option.some.injEq]
      constructor
      · rintro ⟨h1, h2⟩; exact ⟨s, rfl, h1, h2⟩
      · rintro ⟨t, ht, h1, h2⟩; cases ht; exact ⟨h1, h2⟩
  · intro prs
    unfold extract_prs
    rw [List.filter_eq_self.mpr
      (fun pr _ => by simp [prAuthorField, prUserField, author_or_clause, not_regex_clause])]

/-- Claim C6: a serialized row carries the matched text context exactly when
the full-text flag is enabled, and with the flag disabled each row is pruned
to the minimal identity triple of its record. -/
theorem C6_context_iff_flag (records : List FullMatch) (flag : Bool)
    (rows : List RowDict)
    (h : save_matches_to_file records flag = SaveResult.written rows) :
    List.Forall₂ (fun (r : FullMatch) (row : RowDict) =>
      row.matched_text_context.isSome = flag ∧
      (flag = false → row = ⟨r.quality_attribute, r.keyword, r.source_url, none⟩) ∧
      (flag = true →
        row = ⟨r.quality_attribute, r.keyword, r.source_url, some r.matched_text_context⟩))
      records rows := by
  unfold save_matches_to_file at h
  by_cases hlen : records.length = 0
  · rw [if_pos hlen] at h
    exact absurd h (by simp)
  · rw [if_neg hlen] at h
    injection h with h2
    subst h2
    rw [List.forall₂_map_right_iff, List.forall₂_same]
    intro r _
    cases flag with
    | true => simp [FullMatch.as_dict]
    | false => simp [FullMatch.as_dict]

/-- Witness for C6 at a one-record list with the flag enabled. -/
theorem C6_context_iff_flag_witness :
    save_matches_to_file [⟨"UI", "gzip", "https://x/1", "ctx"⟩] true =
      SaveResult.written [⟨"UI", "gzip", "https://x/1", some "ctx"⟩] ∧
    List.Forall₂ (fun (r : FullMatch) (row : RowDict) =>
      row.matched_text_context.isSome = true ∧
      (true = false → row = ⟨r.quality_attribute, r.keyword, r.source_url, none⟩) ∧
      (true = true →
        row = ⟨r.quality_attribute, r.keyword, r.source_url, some r.matched_text_context⟩))
      [⟨"UI", "gzip", "https://x/1", "ctx"⟩]
      [⟨"UI", "gzip", "https://x/1", some "ctx"⟩] :=
  ⟨by decide,
    C6_context_iff_flag [⟨"UI", "gzip", "https://x/1", "ctx"⟩] true
      [⟨"UI", "gzip", "https://x/1", some "ctx"⟩] (by decide)⟩

/-- Claim C8: zero matches is a valid outcome, not an error — saving an
empty record list returns normally writing nothing, the per-source count
line is produced unconditionally (also when the count is zero), and the
aggregator maps an empty stream to an empty sequence. -/
theorem C8_zero_matches_not_error (repoId : String) (b : Bool) :
    process_code_comments [] repoId b = (code_comment_report 0 repoId, SaveResult.skipped) ∧
    (∀ ms : List FullMatch,
      (process_code_comments ms repoId b).1 = code_comment_report ms.length repoId) ∧
    aggregate [] = [] := by
  refine ⟨?_, fun ms => rfl, rfl⟩
  unfold process_code_comments save_matches_to_file
  simp

/-- The operational normalizer only appends fresh cells to the store. -/
theorem transform_heap_extends (b : Bool) :
    ∀ (m : List (String × Nat)) (heap : List (List String)),
      ∃ ext, (transform_quality_attributes_heap heap m b).1 = heap ++ ext := by
  intro m
  induction m with
  | nil => intro heap; exact ⟨[], by simp [transform_quality_attributes_heap]⟩
  | cons p rest ih =>
    intro heap
    obtain ⟨ext, hext⟩ := ih (heap ++
      [pySorted (if b then readRef heap p.2
                 else (readRef heap p.2).map strip_qa_from_regex)])
    refine ⟨pySorted (if b then readRef heap p.2
             else (readRef heap p.2).map strip_qa_from_regex) :: ext, ?_⟩
    simp only [transform_quality_attributes_heap]
    rw [hext, List.append_assoc, List.singleton_append]

/-- Reading the cell just after a prefix returns the value written there. -/
theorem readRef_append_middle (h : List (List String)) (v : List String)
    (ext : List (List String)) : readRef (h ++ v :: ext) h.length = v := by
  induction h with
  | nil => rfl
  | cons a t ih => simpa [readRef, List.getD] using ih

/-- Behaviour of the operational normalizer: keys are preserved, every
result reference is fresh, and dereferencing the result reproduces the pure
`transform_quality_attributes` of the dereferenced input. -/
theorem transform_heap_spec (b : Bool) :
    ∀ (m : List (String × Nat)) (heap : List (List String)),
      (∀ p ∈ m, p.2 < heap.length) →
      ((transform_quality_attributes_heap heap m b).2.map Prod.fst = m.map Prod.fst ∧
       (∀ q ∈ (transform_quality_attributes_heap heap m b).2, heap.length ≤ q.2) ∧
       (transform_quality_attributes_heap heap m b).2.map
           (fun q => readRef (transform_quality_attributes_heap heap m b).1 q.2) =
         (transform_quality_attributes (m.map (fun p => (p.1, readRef heap p.2))) b).map
           Prod.snd) := by
  intro m
  induction m with
  | nil =>
    intro heap _
    exact ⟨rfl, by simp [transform_quality_attributes_heap], rfl⟩
  | cons p rest ih =>
    intro heap href
    have hlt : p.2 < heap.length := href p (List.mem_cons_self p rest)
    obtain ⟨ih1, ih2, ih3⟩ := ih
      (heap ++ [pySorted (if b then readRef heap p.2
                          else (readRef heap p.2).map strip_qa_from_regex)])
      (fun q hq => by
        have := href q (List.mem_cons_of_mem p hq)
        simp only [List.length_append, List.length_cons, List.length_nil]
        omega)
    obtain ⟨ext, hext⟩ := transform_heap_extends b rest
      (heap ++ [pySorted (if b then readRef heap p.2
                          else (readRef heap p.2).map strip_qa_from_regex)])
    refine ⟨?_, ?_, ?_⟩
    · simp only [transform_quality_attributes_heap, List.map_cons]
      rw [ih1]
    · intro q hq
      simp only [transform_quality_attributes_heap, List.mem_cons] at hq
      cases hq with
      | inl h => rw [h]
      | inr h =>
        have := ih2 q h
        simp only [List.length_append, List.length_cons, List.length_nil] at this
        omega
    · simp only [transform_quality_attributes_heap, List.map_cons]
      rw [ih3]
      have hread : readRef (transform_quality_attributes_heap
          (heap ++ [pySorted (if b then readRef heap p.2
                              else (readRef heap p.2).map strip_qa_from_regex)]) rest b).1
            heap.length =
          pySorted (if b then readRef heap p.2
                    else (readRef heap p.2).map strip_qa_from_regex) := by
        rw [hext, List.append_assoc, List.singleton_append]
        exact readRef_append_middle heap _ (ext)
      rw [hread]
      have hsame : rest.map (fun q =>
          (q.1, readRef (heap ++ [pySorted (if b then readRef heap p.2
                          else (readRef heap p.2).map strip_qa_from_regex)]) q.2)) =
          rest.map (fun q => (q.1, readRef heap q.2)) := by
        apply List.map_congr_left
        intro q hq
        have hqlt : q.2 < heap.length := href q (List.mem_cons_of_mem p hq)
        unfold readRef
        rw [List.getD_append _ _ _ _ hqlt]
      rw [hsame]
      rfl

/-- Claim C9: `transform_quality_attributes` is side-effect free — run over
an explicit store of list objects, the call leaves every store cell of the
input (hence the input mapping and every keyword list it contains)
unchanged, returns a mapping holding only freshly allocated lists, and those
lists are exactly the pure function's output. -/
theorem C9_side_effect_free (heap : List (List String)) (m : List (String × Nat))
    (b : Bool) (href : ∀ p ∈ m, p.2 < heap.length) :
    (transform_quality_attributes_heap heap m b).1.take heap.length = heap ∧
    (transform_quality_attributes_heap heap m b).2.map Prod.fst = m.map Prod.fst ∧
    (∀ q ∈ (transform_quality_attributes_heap heap m b).2, heap.length ≤ q.2) ∧
    (transform_quality_attributes_heap heap m b).2.map
        (fun q => readRef (transform_quality_attributes_heap heap m b).1 q.2) =
      (transform_quality_attributes (m.map (fun p => (p.1, readRef heap p.2))) b).map
        Prod.snd := by
  obtain ⟨ext, hext⟩ := transform_heap_extends b m heap
  obtain ⟨h1, h2, h3⟩ := transform_heap_spec b m heap href
  exact ⟨by rw [hext]; exact List.take_left heap ext, h1, h2, h3⟩

/-- Witness for C9 at a concrete one-entry store and mapping. -/
theorem C9_side_effect_free_witness :
    (∀ p ∈ ([("A", 0)] : List (String × Nat)),
        p.2 < ([["gzip", "a b"]] : List (List String)).length) ∧
    ((transform_quality_attributes_heap [["gzip", "a b"]] [("A", 0)] true).1.take
        ([["gzip", "a b"]] : List (List String)).length = [["gzip", "a b"]] ∧
     (transform_quality_attributes_heap [["gzip", "a b"]] [("A", 0)] true).2.map
        Prod.fst = ([("A", 0)] : List (String × Nat)).map Prod.fst ∧
     (∀ q ∈ (transform_quality_attributes_heap [["gzip", "a b"]] [("A", 0)] true).2,
        ([["gzip", "a b"]] : List (List String)).length ≤ q.2) ∧
     (transform_quality_attributes_heap [["gzip", "a b"]] [("A", 0)] true).2.map
        (fun q => readRef (transform_quality_attributes_heap
          [["gzip", "a b"]] [("A", 0)] true).1 q.2) =
       (transform_quality_attributes
         (([("A", 0)] : List (String × Nat)).map
           (fun p => (p.1, readRef [["gzip", "a b"]] p.2))) true).map Prod.snd) :=
  ⟨by decide, C9_side_effect_free [["gzip", "a b"]] [("A", 0)] true (by decide)⟩

/-- Claim C10 counterexample: the claim's reference scan deletes ANY single
character followed by a question mark, but the code's `.` does not match a
newline; on the two-character input newline-questionmark the code deletes
nothing while the claim's scan deletes both characters. -/
theorem C10_counterexample :
    stripChars ['\n', '?'] = ['\n', '?'] ∧
    stripSpecClaim ['\n', '?'] = [] ∧
    strip_qa_from_regex (String.mk ['\n', '?']) ≠ String.mk (stripSpecClaim ['\n', '?']) :=
  ⟨by decide, by decide, by decide⟩

/-- The source scan agrees with the claim's reference scan on every
character list free of newlines. -/
theorem stripChars_eq_claim_of_no_newline :
    ∀ l : List Char, '\n' ∉ l → stripChars l = stripSpecClaim l := by
  intro l
  induction l using stripChars.induct with
  | case1 => intro _; rfl
  | case2 c => intro _; rfl
  | case3 c d rest h ih =>
    intro hn
    rw [stripChars, stripSpecClaim, if_pos h, if_pos h,
      ih (fun hm => hn (List.mem_cons_of_mem _ (List.mem_cons_of_mem _ hm)))]
  | case4 c d rest h1 h2 ih =>
    intro hn
    rw [stripChars, stripSpecClaim, if_neg h1, if_neg h1, if_pos h2, if_pos h2.2,
      ih (fun hm => hn (List.mem_cons_of_mem _ (List.mem_cons_of_mem _ hm)))]
  | case5 c d rest h1 h2 ih =>
    intro hn
    have hc : c ≠ '\n' := fun hc => hn (hc ▸ List.mem_cons_self c (d :: rest))
    have hd : ¬ d = '?' := fun hd => h2 ⟨hc, hd⟩
    rw [stripChars, stripSpecClaim, if_neg h1, if_neg h1, if_neg h2, if_neg hd,
      ih (fun hm => hn (List.mem_cons_of_mem _ hm))]

/-- Claim C10 as amended: for every input free of newline characters (in
particular every taxonomy pattern), `strip_qa_from_regex` deletes, in one
left-to-right scan, every non-overlapping occurrence of backslash-b or of a
single non-newline character immediately followed by a question mark,
leaving escaped spaces, stars and dots in place. -/
theorem C10_strip_reference (s : String) (h : '\n' ∉ s.data) :
    strip_qa_from_regex s = String.mk (stripSpecClaim s.data) :=
  congrArg String.mk (stripChars_eq_claim_of_no_newline s.data h)

/-- Witness for C10 on a real taxonomy pattern with escaped tokens. -/
theorem C10_strip_reference_witness :
    '\n' ∉ ("every\\ \\*\\ minutes" : String).data ∧
    strip_qa_from_regex "every\\ \\*\\ minutes" =
      String.mk (stripSpecClaim ("every\\ \\*\\ minutes" : String).data) :=
  ⟨by decide, C10_strip_reference "every\\ \\*\\ minutes" (by decide)⟩

end EnergyPatternSearch
